import Mathlib

/-!
# Verification of the mojodep dependency-resolution and lockfile-synthesis core

Shallow embedding of the mojodep repository (Python) in Lean 4.

Strings are modelled as `List Char`.  Python sets are modelled as lists with
first-occurrence deduplication (`pySet`); all set-valued facts are stated via
membership, which is independent of the arbitrary iteration order of Python
sets.  Python dicts are modelled as association lists built by
insert-or-overwrite (`pydict`).  External subprocess invocations (git, rosdep,
colcon, apt-cache, pip3) are modelled as oracle parameters carrying the exit
code and captured output of the call.

All recursive definitions are structural (fuel-based where the natural
recursion is not structural) so that every definition evaluates inside the
kernel on concrete inputs.
-/

deriving instance DecidableEq for Except

namespace Mojodep

/-- Strings of the embedded program. -/
abbrev Str := List Char

/-- Convert a Lean string literal to the embedded string type. -/
def str (s : String) : Str := s.toList

/-- Python exception classes raised by the modelled code. -/
inductive PyErr where
  /-- `ValueError` (the spec's `ValidationError` / `ParseError`). -/
  | valueError
  /-- `RuntimeError` (the spec's `ToolUnavailable` / `ExternalToolFailure`). -/
  | runtimeError
  /-- `TypeError`, raised by `in` / indexing on unsuitable objects. -/
  | typeError
  /-- `KeyError`, raised by indexing a mapping with an absent key. -/
  | keyError
  /-- `AttributeError`, raised e.g. by `.items()` on a non-mapping. -/
  | attributeError
  /-- `NameError`, raised when a global name is not defined. -/
  | nameError
  /-- `re.error`, raised by `re.compile` on an invalid pattern. -/
  | reError
deriving DecidableEq, Repr

/-- `[p] isPrefixOf [t]`: does `t` start with `p`? -/
def startsWith : Str → Str → Bool
  | [], _ => true
  | _ :: _, [] => false
  | p :: ps, c :: cs => p = c && startsWith ps cs

/-- Python's `pat in text` substring test. -/
def containsSub (pat : Str) : Str → Bool
  | [] => startsWith pat []
  | s@(_ :: rest) => startsWith pat s || containsSub pat rest

/-- Length of the maximal prefix of `s` whose characters all satisfy `p`. -/
def runLen (p : Char → Bool) : Str → Nat
  | [] => 0
  | c :: cs => if p c then runLen p cs + 1 else 0

/-- Python's `\s` class (`str.isspace` characters, ASCII fragment). -/
def pyIsSpace (c : Char) : Bool :=
  c = ' ' || c = '\t' || c = '\n' || c = '\r' || c = '\x0b' || c = '\x0c'

/-- Python's `\S` class: not whitespace. -/
def pyNonSpace (c : Char) : Bool := !pyIsSpace c

/-- Python's `\w` class (ASCII fragment): letters, digits, underscore. -/
def pyIsWord (c : Char) : Bool := c.isAlphanum || c = '_'

/-- Python's `\d` class (ASCII fragment). -/
def pyIsDigit (c : Char) : Bool := c.isDigit

/-- Python's `int(...)` on a digit string. -/
def natOfDigits (s : Str) : Nat :=
  s.foldl (fun n c => n * 10 + (c.toNat - 48)) 0

/-- Python's `str.strip()`: remove leading and trailing whitespace. -/
def pstrip (s : Str) : Str :=
  ((s.dropWhile pyIsSpace).reverse.dropWhile pyIsSpace).reverse

/-- First-occurrence deduplication with an accumulator of already-seen
elements: the model of Python's `set(...)` constructor applied to a list
of elements. -/
def dedupGo [DecidableEq α] (seen : List α) : List α → List α
  | [] => []
  | x :: xs => if x ∈ seen then dedupGo seen xs else x :: dedupGo (x :: seen) xs

/-- Model of a Python `set` built from the iterable `l`: the list of distinct
elements of `l` in first-occurrence order. -/
def pySet [DecidableEq α] (l : List α) : List α := dedupGo [] l

/-- Insert-or-overwrite for association lists: existing keys keep their
position and get the new value, new keys are appended (Python dict insertion
semantics). -/
def upsert [DecidableEq κ] (acc : List (κ × α)) (p : κ × α) : List (κ × α) :=
  match acc with
  | [] => [p]
  | (k, v) :: rest => if k = p.1 then (k, p.2) :: rest else (k, v) :: upsert rest p

/-- Model of a Python dict comprehension over the key-value pairs `l`. -/
def pydict [DecidableEq κ] (l : List (κ × α)) : List (κ × α) := l.foldl upsert []

/-- The key set of an association list. -/
def keysOf (d : List (κ × α)) : List κ := d.map Prod.fst

/-- Sequence a fallible function over a list (Python: exceptions inside an
iteration propagate out of it). -/
def mapExcept (f : α → Except ε β) : List α → Except ε (List β)
  | [] => .ok []
  | x :: xs =>
    match f x with
    | .error e => .error e
    | .ok y =>
      match mapExcept f xs with
      | .error e => .error e
      | .ok ys => .ok (y :: ys)

/-! ## A matcher for the regular expressions occurring in the source

Every regex the source code matches against input is (after the
placeholder substitution of `_release_tag_pattern_to_regex`) a
concatenation of literal characters, greedy captured character-class plus
groups (`(?P<g>\w+)`, `(?P<g>\d+)`, `(?P<g>\S+)`), and an optional `$`
anchor.  `RAtom` is that atom language and `mmatch` is Python's
backtracking `re.match` on it: anchored at position 0, greedy groups with
backtracking, trailing input permitted.  The one source regex that does not
fit this shape (`^(\S+)(?:\s+(\S+))*$`) is modelled separately
(`pkgListMatch`). -/

/-- One atom of a compiled regular expression. -/
inductive RAtom where
  /-- A literal character. -/
  | lit (c : Char)
  /-- A captured greedy one-or-more character-class group `(?P<id>cls+)`. -/
  | grp (id : Nat) (cls : Char → Bool)
  /-- The `$` anchor: matches only at the end of the input
  (inputs are single lines, so the before-final-newline case is folded in
  by the callers that need it). -/
  | eos

/-- Captures of a match: group id with matched text. -/
abbrev Caps := List (Nat × Str)

/-- Backtracking loop of a greedy group: try to match the continuation
`next` after consuming `k, k-1, …, 1` characters of `s`, longest first
(Python's greedy `+` with backtracking). -/
def tryKs (next : Str → Option Caps) (id : Nat) (s : Str) : Nat → Option Caps
  | 0 => none
  | k + 1 =>
    match next (s.drop (k + 1)) with
    | some caps => some ((id, s.take (k + 1)) :: caps)
    | none => tryKs next id s k

/-- Fuel-indexed matcher.  The fuel decreases by exactly one per consumed
atom, and callers supply `atoms.length + 1`, so the out-of-fuel branch is
unreachable and the `atoms.length + 1` instance satisfies the intended
equations definitionally. -/
def mgo : Nat → List RAtom → Str → Option Caps
  | 0, _, _ => none
  | _ + 1, [], _ => some []
  | f + 1, .eos :: r, s => if s.isEmpty then mgo f r s else none
  | _ + 1, .lit _ :: _, [] => none
  | f + 1, .lit c :: r, x :: s => if x = c then mgo f r s else none
  | f + 1, .grp id p :: r, s => tryKs (fun t => mgo f r t) id s (runLen p s)

/-- Python's `re.match` for the atom language: anchored at the start of
`s`, trailing characters after the atoms permitted. -/
def mmatch (atoms : List RAtom) (s : Str) : Option Caps :=
  mgo (atoms.length + 1) atoms s

/-- Look up the text captured by group `id`. -/
def capOf (id : Nat) (caps : Caps) : Option Str :=
  (caps.find? fun c => c.1 = id).map Prod.snd

/-! ## `mojodep_rosdistro.resolve._release_tag_pattern_to_regex`

The source escapes the template with `re.escape`, requires the escaped
substrings `\{package\}` and `\{version\}` to be present (else
`ValueError`), substitutes the version placeholder with
`(?P<version_maj>\d+)\.(?P<version_min>\d+)\.(?P<version_patch>\d+)-(?P<version_increment>\d+)`
and the package placeholder with `(?P<package_name>\w+)`, and calls
`re.compile` on the result.

The substitution never creates or destroys placeholder occurrences (the
replacement texts contain no braces, and the two placeholders cannot
overlap), so the compiled regex is exactly the template read left to right
with each `{package}` occurrence turned into the package group, each
`{version}` occurrence turned into the version group, and every other
character a literal (`templateSegs`).  `re.compile` itself fails (with
`re.error`, not `ValueError`) exactly when a named group is defined twice,
i.e. when a placeholder occurs more than once. -/

/-- The characters `re.escape` prefixes with a backslash
(`()[]{}?*+-|^$\.&~#` and whitespace). -/
def pySpecial (c : Char) : Bool :=
  (str "()[]\x7b\x7d?*+-|^$\\.&~# \t\n\r\x0b\x0c").contains c

/-- Python's `re.escape`. -/
def escape : Str → Str
  | [] => []
  | c :: t => if pySpecial c then '\\' :: c :: escape t else c :: escape t

/-- The literal `{package}` placeholder. -/
def pkgPat : Str := str "{package}"

/-- The literal `{version}` placeholder. -/
def verPat : Str := str "{version}"

/-- The escaped placeholder `\{package\}` the source tests for. -/
def escPkgPat : Str := str "\\\x7bpackage\\\x7d"

/-- The escaped placeholder `\{version\}` the source tests for. -/
def escVerPat : Str := str "\\\x7bversion\\\x7d"

/-- One segment of a compiled release-tag pattern. -/
inductive Seg where
  /-- A literal character of the template. -/
  | lit (c : Char)
  /-- The `(?P<package_name>\w+)` group substituted for `{package}`. -/
  | pkg
  /-- The four-field version group substituted for `{version}`. -/
  | ver
deriving DecidableEq, Repr

/-- Fuel-indexed left-to-right segmentation of a template: each placeholder
occurrence becomes its group, every other character a literal.  Fuel
decreases by one per step while at least one character is consumed, so
`t.length + 1` fuel never runs out. -/
def segsGo : Nat → Str → List Seg
  | 0, _ => []
  | _ + 1, [] => []
  | f + 1, s@(c :: rest) =>
    if startsWith pkgPat s then .pkg :: segsGo f (s.drop 9)
    else if startsWith verPat s then .ver :: segsGo f (s.drop 9)
    else .lit c :: segsGo f rest

/-- The segments of the regex built from template `t`. -/
def templateSegs (t : Str) : List Seg := segsGo (t.length + 1) t

/-- `_release_tag_pattern_to_regex`: compile a release-tag template.
Missing placeholders (tested on the `re.escape`d template, as in the
source) raise `ValueError`; a repeated placeholder makes `re.compile`
reject the duplicated named group with `re.error`. -/
def releaseTagPatternToRegex (t : Str) : Except PyErr (List Seg) :=
  let escaped := escape t
  if !containsSub escPkgPat escaped then .error .valueError
  else if !containsSub escVerPat escaped then .error .valueError
  else
    let segs := templateSegs t
    if 2 ≤ segs.count .pkg || 2 ≤ segs.count .ver then .error .reError
    else .ok segs

/-- Group ids of the compiled pattern: 0 `package_name`, 1 `version_maj`,
2 `version_min`, 3 `version_patch`, 4 `version_increment`. -/
def segAtoms : Seg → List RAtom
  | .lit c => [.lit c]
  | .pkg => [.grp 0 pyIsWord]
  | .ver => [.grp 1 pyIsDigit, .lit '.', .grp 2 pyIsDigit, .lit '.',
             .grp 3 pyIsDigit, .lit '-', .grp 4 pyIsDigit]

/-- The full atom list of a compiled release-tag pattern. -/
def templateAtoms (segs : List Seg) : List RAtom := (segs.map segAtoms).flatten

/-- `versions: frozenset[...]` element: a bloom version number. -/
structure BloomVersionNumber where
  major : Nat
  minor : Nat
  patch : Nat
  increment : Nat
deriving DecidableEq, Repr

/-- `tag_pattern.match(tag)` followed by the group extraction and `int(...)`
conversions of `extract_released_packages_and_versions`. -/
def matchReleaseTag (segs : List Seg) (tag : Str) :
    Option (Str × BloomVersionNumber) := do
  let caps ← mmatch (templateAtoms segs) tag
  let name ← capOf 0 caps
  let a ← capOf 1 caps
  let b ← capOf 2 caps
  let c ← capOf 3 caps
  let d ← capOf 4 caps
  some (name, ⟨natOfDigits a, natOfDigits b, natOfDigits c, natOfDigits d⟩)

/-! ## `mojodep_rosdep.discovery` -/

/-- `ResolvedRosdep`: one resolved system dependency record. -/
structure ResolvedRosdep where
  key : Str
  source : Str
  packages : List Str
deriving DecidableEq, Repr

/-- `AptVersion`: apt package metadata. -/
structure AptVersion where
  version : Str
  hash : Str
deriving DecidableEq, Repr

/-- `PipVersion`: pip package metadata. -/
structure PipVersion where
  version : Str
deriving DecidableEq, Repr

/-- Atoms of `^#ROSDEP\[(?P<key>\S+)\]` (used with `re.match`). -/
def headerAtoms : List RAtom :=
  (str "#ROSDEP[").map .lit ++ [.grp 0 pyNonSpace, .lit ']']

/-- Atoms of `^#(?P<source>\S+)$` (used with `re.match`; the input is a
line from `splitlines`, so it contains no newline and `$` is end-of-input). -/
def sourceAtoms : List RAtom := [.lit '#', .grp 0 pyNonSpace, .eos]

/-- `re_rosdep_header.match(line)` with the `key` group extracted. -/
def headerMatch (line : Str) : Option Str :=
  (mmatch headerAtoms line).bind (capOf 0)

/-- `re_rosdep_source.match(line)` with the `source` group extracted. -/
def sourceMatch (line : Str) : Option Str :=
  (mmatch sourceAtoms line).bind (capOf 0)

/-- Split a line into maximal whitespace-separated runs (possibly empty at
whitespace boundaries). -/
def splitRuns (s : Str) : List Str :=
  s.foldr
    (fun c acc =>
      match acc with
      | [] => [[]]
      | t :: ts => if pyIsSpace c then [] :: t :: ts else (c :: t) :: ts)
    [[]]

/-- The whitespace-separated tokens of a line. -/
def tokenize (s : Str) : List Str := (splitRuns s).filter (fun t => !t.isEmpty)

/-- `re_rosdep_package_list.match(line)` for `^(\S+)(?:\s+(\S+))*$`:
the line must be a nonempty sequence of whitespace-separated `\S+` tokens
with no leading or trailing whitespace.  `m.groups()` of this regex is the
pair (first token, last token if a repetition of the starred group matched
else `None`) — a repeated capture group retains only its final match. -/
def pkgListMatch (line : Str) : Option (Str × Option Str) :=
  match line.head?, line.getLast? with
  | some c0, some cl =>
    if pyIsSpace c0 || pyIsSpace cl then none
    else
      match tokenize line with
      | [] => none
      | t :: ts => some (t, ts.getLast?)
  | _, _ => none

/-- `list(filter(None, m.groups()))`: drop the `None` group. -/
def packagesOfGroups (g : Str × Option Str) : List Str := g.1 :: g.2.toList

/-- The three-state parsing loop of `resolve_keys_to_system_deps` over the
lines of `rosdep resolve` output; the state is (current_key,
current_source).  Any line failing the grammar of the current state, and
end of input in a non-initial state, raise `ValueError`. -/
def parseLoop : Option Str → Option Str → List Str →
    Except PyErr (List ResolvedRosdep)
  | none, none, [] => .ok []
  | none, some _, [] => .error .valueError
  | some _, _, [] => .error .valueError
  | none, _, l :: ls =>
    match headerMatch l with
    | none => .error .valueError
    | some k => parseLoop (some k) none ls
  | some k, none, l :: ls =>
    match sourceMatch l with
    | none => .error .valueError
    | some src => parseLoop (some k) (some src) ls
  | some k, some src, l :: ls =>
    match pkgListMatch l with
    | none => .error .valueError
    | some g => (parseLoop none none ls).map (⟨k, src, packagesOfGroups g⟩ :: ·)

/-- Parse the full `rosdep resolve` stdout (given as lines). -/
def parseResolved (lines : List Str) : Except PyErr (List ResolvedRosdep) :=
  parseLoop none none lines

/-- `resolve_keys_to_system_deps`, with the subprocess result of
`rosdep resolve <keys>` supplied as the oracle `(ret, lines)`:  a non-zero
exit raises `RuntimeError`, otherwise the stdout lines are parsed. -/
def resolveKeysToSystemDeps (ret : Int) (lines : List Str) :
    Except PyErr (List ResolvedRosdep) :=
  if ret ≠ 0 then .error .runtimeError else parseResolved lines

/-- Semantics of `re.search(r"^Label:\s*(?P<g>\S+)$", stdout)` without
`re.MULTILINE` (as in the source): `^` anchors at the start of the whole
output only, so the output must begin with `label`, followed by optional
whitespace, a nonempty `\S+` token (captured), and then the end of the
string, optionally preceded by one final newline (the positions at which
`$` matches). -/
def searchLabeled (label : Str) (stdout : Str) : Option Str :=
  if startsWith label stdout then
    let rest := (stdout.drop label.length).dropWhile pyIsSpace
    let tok := rest.takeWhile pyNonSpace
    let tail := rest.dropWhile pyNonSpace
    if tok.isEmpty then none
    else if tail.isEmpty || tail = ['\n'] then some tok else none
  else none

/-- `get_apt_version`, with the subprocess result of
`apt-cache show <pkg>` supplied as the oracle `(ret, stdout)` (the stderr
text only feeds the error messages and is omitted).  Despite the
`AptVersion | None` annotation, the source raises `ValueError` both when
the command fails and when the `Version:`/`SHA256:` fields cannot be
extracted; no path returns `None`. -/
def getAptVersion (ret : Int) (stdout : Str) :
    Except PyErr (Option AptVersion) :=
  if ret ≠ 0 then .error .valueError
  else
    match searchLabeled (str "Version:") stdout,
          searchLabeled (str "SHA256:") stdout with
    | some v, some h => .ok (some ⟨v, h⟩)
    | _, _ => .error .valueError

/-- `get_pip_version`, with the subprocess result of `pip3 show <pkg>`
supplied as the oracle `(ret, stdout)`.  As with `getAptVersion`, no path
returns `None`. -/
def getPipVersion (ret : Int) (stdout : Str) :
    Except PyErr (Option PipVersion) :=
  if ret ≠ 0 then .error .valueError
  else
    match searchLabeled (str "Version:") stdout with
    | some v => .ok (some ⟨v⟩)
    | none => .error .valueError

/-- The canonical defining-index URI
`https://raw.githubusercontent.com/ros/rosdistro/master/<distro>/distribution.yaml`. -/
def canonicalUri (distro : Str) : Str :=
  str "https://raw.githubusercontent.com/ros/rosdistro/master/" ++ distro ++
    str "/distribution.yaml"

/-- `get_keys_in_rosdistro`, with the subprocess result of
`rosdep where-defined <keys>` supplied as the oracle `(ret, outLines)`.
`keys` is the iteration order of the input collection; a non-zero exit
raises `RuntimeError`; a line-count mismatch raises `ValueError`; otherwise
each key is paired positionally with its output line and kept iff the
stripped line equals the canonical URI. -/
def getKeysInRosdistro (keys : List Str) (distro : Str) (ret : Int)
    (outLines : List Str) : Except PyErr (List Str) :=
  if ret ≠ 0 then .error .runtimeError
  else if outLines.length ≠ keys.length then .error .valueError
  else
    .ok (pySet (((keys.zip outLines).filter
      fun p => pstrip p.2 = canonicalUri distro).map Prod.fst))

/-! ## `mojodep_rosdistro.resolve`: distribution-file extraction

The distribution declaration is a YAML document.  The extraction code only
distinguishes mappings (indexed by string keys) from other values, and the
only non-mapping values the claims exercise are strings, so YAML values are
modelled as strings and string-keyed mappings; mappings are encoded as
cons-chains so that equality is structural and kernel-decidable. -/

/-- A YAML value: a string scalar or a string-keyed mapping (encoded as a
cons-chain: `mnil` is the empty mapping, `mcons k v rest` the mapping
`rest` with the binding `k ↦ v` in front). -/
inductive Yaml where
  | str (s : List Char)
  | mnil
  | mcons (key : List Char) (val : Yaml) (rest : Yaml)
deriving DecidableEq, Repr

/-- Python's `key in value`: key membership for a mapping, substring test
for a string. -/
def pyIn (k : Str) : Yaml → Bool
  | .str s => containsSub k s
  | .mnil => false
  | .mcons key _ rest => key = k || pyIn k rest

/-- Python's `value[key]`: mapping lookup (`KeyError` when absent),
`TypeError` on a string. -/
def pyIndex : Yaml → Str → Except PyErr Yaml
  | .str _, _ => .error .typeError
  | .mnil, _ => .error .keyError
  | .mcons key v rest, k => if key = k then .ok v else pyIndex rest k

/-- The key-value pairs of a mapping, as iterated by `.items()`;
`AttributeError` on a string. -/
def pyItems : Yaml → Except PyErr (List (Str × Yaml))
  | .str _ => .error .attributeError
  | .mnil => .ok []
  | .mcons key v rest => (pyItems rest).map ((key, v) :: ·)

/-- Reason string `INVALID_REPO_NO_RELEASE`. -/
def invalidRepoNoRelease : Str := str "No release data"

/-- Reason string `INVALID_REPO_NO_RELEASE_REPO_URL`. -/
def invalidRepoNoReleaseRepoUrl : Str := str "No release repository URL"

/-- Reason string `INVALID_REPO_NO_RELEASE_TAG_PATTERN`. -/
def invalidRepoNoReleaseTagPattern : Str := str "No release tag pattern"

/-- `ReleaseRepoInfo`: where and how a repository's releases are tagged.
The stored values are whatever the distribution file contains at
`release.url` and `release.tags.release` (YAML values; strings in every
well-formed file). -/
structure ReleaseRepoInfo where
  release_repo_url : Yaml
  release_tag_pattern : Yaml
deriving DecidableEq, Repr

/-- `RepoExtractionResult`: valid release repositories and invalid
repositories with their reason strings (Python dicts, modelled as
association lists in insertion order). -/
structure RepoExtractionResult where
  release_info : List (Str × ReleaseRepoInfo)
  invalid_repos : List (Str × Str)
deriving DecidableEq, Repr

/-- The per-repository loop body of `extract_released_repos`, folded over
the `.items()` of the `repositories` mapping. -/
def extractReposLoop : List (Str × Yaml) → Except PyErr RepoExtractionResult
  | [] => .ok ⟨[], []⟩
  | (name, repoData) :: rest => do
    if !pyIn (str "release") repoData then
      let r ← extractReposLoop rest
      .ok ⟨r.release_info, (name, invalidRepoNoRelease) :: r.invalid_repos⟩
    else do
      let releaseData ← pyIndex repoData (str "release")
      if !pyIn (str "url") releaseData then
        let r ← extractReposLoop rest
        .ok ⟨r.release_info, (name, invalidRepoNoReleaseRepoUrl) :: r.invalid_repos⟩
      else do
        let url ← pyIndex releaseData (str "url")
        if !pyIn (str "tags") releaseData then
          let r ← extractReposLoop rest
          .ok ⟨r.release_info, (name, invalidRepoNoReleaseTagPattern) :: r.invalid_repos⟩
        else do
          let tagsData ← pyIndex releaseData (str "tags")
          if !pyIn (str "release") tagsData then
            let r ← extractReposLoop rest
            .ok ⟨r.release_info, (name, invalidRepoNoReleaseTagPattern) :: r.invalid_repos⟩
          else do
            let pat ← pyIndex tagsData (str "release")
            let r ← extractReposLoop rest
            .ok ⟨(name, ⟨url, pat⟩) :: r.release_info, r.invalid_repos⟩

/-- `extract_released_repos`, applied to the parsed distribution document:
a document without a top-level `repositories` key yields an empty result;
otherwise each repository entry is classified as valid (with its
`ReleaseRepoInfo`) or invalid (with a reason string). -/
def extractReleasedRepos (doc : Yaml) : Except PyErr RepoExtractionResult :=
  if !pyIn (str "repositories") doc then .ok ⟨[], []⟩
  else do
    let repos ← pyIndex doc (str "repositories")
    let entries ← pyItems repos
    extractReposLoop entries

/-- `TagInfo`: one remote tag and the commit it points to. -/
structure TagInfo where
  tag : Str
  ref : Str
deriving DecidableEq, Repr

/-- `ReleasedPackageVersion`: one released version of a package. -/
structure ReleasedPackageVersion where
  version : BloomVersionNumber
  tag : Str
  commit_hash : Str
deriving DecidableEq, Repr

/-- `ReleasedPackage`: a package with its release repository and the set of
its released versions (a Python `frozenset`, modelled as a duplicate-free
list in insertion order). -/
structure ReleasedPackage where
  name : Str
  release_repo_url : Yaml
  versions : List ReleasedPackageVersion
deriving DecidableEq, Repr

/-- `frozenset((*package.versions, version))`: add a version to the set. -/
def addVersion (vs : List ReleasedPackageVersion) (v : ReleasedPackageVersion) :
    List ReleasedPackageVersion :=
  if v ∈ vs then vs else vs ++ [v]

/-- The per-tag loop body of `extract_released_packages_and_versions`:
match the tag, then create or update the dict entry of the matched
package, merging the new version into its version set. -/
def foldTag (info : ReleaseRepoInfo) (segs : List Seg)
    (dict : List (Str × ReleasedPackage)) (ti : TagInfo) :
    List (Str × ReleasedPackage) :=
  match matchReleaseTag segs ti.tag with
  | none => dict
  | some (name, ver) =>
    let dict' := if name ∈ keysOf dict then dict
      else upsert dict (name, ⟨name, info.release_repo_url, []⟩)
    match dict'.find? (fun p => p.1 = name) with
    | none => dict'
    | some (_, pkg) =>
      upsert dict' (name,
        { pkg with versions := addVersion pkg.versions ⟨ver, ti.tag, ti.ref⟩ })

/-- `extract_released_packages_and_versions`, with the remote tag listing
supplied by the oracle `fetch` (the result of `_fetch_remote_tags` on the
repository URL).  An empty tag list short-circuits to an empty dict before
the pattern is compiled; a non-string tag pattern would make `re.escape`
raise `TypeError`. -/
def extractReleasedPackagesAndVersions (fetch : Yaml → List TagInfo)
    (info : ReleaseRepoInfo) : Except PyErr (List (Str × ReleasedPackage)) :=
  let tags := fetch info.release_repo_url
  if tags.isEmpty then .ok []
  else do
    let tmpl ← match info.release_tag_pattern with
      | .str s => .ok s
      | _ => .error .typeError
    let segs ← releaseTagPatternToRegex tmpl
    .ok (tags.foldl (foldTag info segs) [])

/-- `get_or_build_released_package_cache`: deduplicate the declared
`ReleaseRepoInfo` values (`set(release_info.values())`), extract each
repository's packages (the thread pool distributes the per-repository
calls; the fold into the aggregate is order-independent set union), and
union all package records into one Python set.  The result is a set of
`ReleasedPackage` records — not a mapping keyed by package name. -/
def getOrBuildReleasedPackageCache (fetch : Yaml → List TagInfo)
    (res : RepoExtractionResult) : Except PyErr (List ReleasedPackage) :=
  match mapExcept (extractReleasedPackagesAndVersions fetch)
      (pySet (res.release_info.map Prod.snd)) with
  | .error e => .error e
  | .ok results => .ok (pySet ((results.map (·.map Prod.snd)).flatten))

/-- `resolve_keys_to_sources`, with the repository acquisition, the
distribution-file extraction and the tag fetching behind it summarised by
the already-built package cache `allPackages`: keep exactly the cached
packages whose name is one of the queried keys. -/
def resolveKeysToSources (allPackages : List ReleasedPackage)
    (keys : List Str) : List ReleasedPackage :=
  allPackages.filter (fun p => p.name ∈ keys)

/-! ## `mojodep_colcon.discovery` and `mojodep_lockfile` -/

/-- `ColconSourcePackage`: one workspace source package. -/
structure ColconSourcePackage where
  name : Str
  path : Str
  pkgtype : Str
deriving DecidableEq, Repr

/-- `Lockfile`: the versioned snapshot (dicts modelled as association
lists in insertion order). -/
structure Lockfile where
  version : Nat
  project_packages : List (Str × ColconSourcePackage)
  rosdistro_packages : List (Str × ReleasedPackage)
  system_packages : List (Str × ResolvedRosdep)
deriving DecidableEq, Repr

/-- `mojodep_lockfile.serde.dumps`: the function body evaluates
`tosholi.format.dumps(lockfile)`, but `serde.py` never imports `tosholi`,
so every call raises `NameError: name 'tosholi' is not defined` before any
serialization happens. -/
def dumps (_lockfile : Lockfile) : Except PyErr Str := .error .nameError

/-- `mojodep_lockfile.serde.loads`: evaluates `tosholi.parse.loads`, and
`tosholi` is equally undefined in `serde.py`, so every call raises
`NameError`. -/
def loads (_data : Str) : Except PyErr Lockfile := .error .nameError

/-! ## `mojodep.lock.on_lock_command` -/

/-- The system-key set of a lock run: the original dependency keys minus
the names of the packages resolved from the release index
(`rosdeps - rosdistro_keys`). -/
def systemKeysOf (rosdeps : List Str) (allPackages : List ReleasedPackage) :
    List Str :=
  let rosdistroKeys := pySet ((resolveKeysToSources allPackages rosdeps).map (·.name))
  rosdeps.filter (fun k => k ∉ rosdistroKeys)

/-- `on_lock_command`, with the external steps supplied as oracles:
`discovered` is the `colcon list` result, `rosdeps` the `rosdep keys`
result (in set-iteration order), `allPackages` the release-package cache
built by `resolve_keys_to_sources`'s pipeline, and `(resolveRet,
resolveOut)` the subprocess result of `rosdep resolve` on the system keys.
The function assembles the Lockfile value exactly as the source does; the
subsequent `serde.dump` call (which raises `NameError`, see `dumps`) is
the subject of the serialization claim and not modelled here. -/
def onLockCommand (discovered : List ColconSourcePackage)
    (rosdeps : List Str) (allPackages : List ReleasedPackage)
    (resolveRet : Int) (resolveOut : List Str) : Except PyErr Lockfile :=
  let resolvedRosdistro := resolveKeysToSources allPackages rosdeps
  match resolveKeysToSystemDeps resolveRet resolveOut with
  | .error e => .error e
  | .ok records =>
    .ok { version := 0
          project_packages := pydict (discovered.map fun p => (p.name, p))
          rosdistro_packages := pydict (resolvedRosdistro.map fun p => (p.name, p))
          system_packages := pydict (records.map fun r => (r.key, r)) }

/-- The closure invariant of the spec: every original dependency key is a
key of exactly one of `rosdistro_packages` and `system_packages`. -/
abbrev ClosureHolds (rosdeps : List Str) (lf : Lockfile) : Prop :=
  ∀ k ∈ rosdeps,
    (k ∈ keysOf lf.rosdistro_packages ∧ k ∉ keysOf lf.system_packages) ∨
    (k ∉ keysOf lf.rosdistro_packages ∧ k ∈ keysOf lf.system_packages)

/-! ## Concrete scenario: two release repositories declaring the same
package name (exercises the duplicate-name aggregation). -/

/-- Tag-fetch oracle for the two-repository scenario: repository `a` and
repository `b` each publish one release tag for a package named `pkg`. -/
def fetchTwoRepos : Yaml → List TagInfo := fun u =>
  if u = .str (str "a") then [⟨str "pkg/1.0.0-1", str "aaaa"⟩]
  else if u = .str (str "b") then [⟨str "pkg/1.0.0-1", str "bbbb"⟩]
  else []

/-- Extraction result declaring the two repositories of the scenario, both
using the template `{package}/{version}`. -/
def twoRepoExtraction : RepoExtractionResult :=
  ⟨[(str "repoA", ⟨.str (str "a"), .str (str "{package}/{version}")⟩),
    (str "repoB", ⟨.str (str "b"), .str (str "{package}/{version}")⟩)], []⟩

/-- The catalog the two-repository scenario produces: two distinct records
both named `pkg`. -/
def twoRepoCatalog : List ReleasedPackage :=
  [⟨str "pkg", .str (str "a"), [⟨⟨1, 0, 0, 1⟩, str "pkg/1.0.0-1", str "aaaa"⟩]⟩,
   ⟨str "pkg", .str (str "b"), [⟨⟨1, 0, 0, 1⟩, str "pkg/1.0.0-1", str "bbbb"⟩]⟩]

/-! # Lemmas -/

/-! ## Python set and dict models -/

theorem mem_dedupGo [DecidableEq α] (seen l : List α) (x : α) :
    x ∈ dedupGo seen l ↔ x ∈ l ∧ x ∉ seen := by
  induction l generalizing seen with
  | nil => simp [dedupGo]
  | cons y ys ih =>
    by_cases hy : y ∈ seen
    · rw [dedupGo, if_pos hy, ih]
      simp only [List.mem_cons]
      constructor
      · rintro ⟨hx, hs⟩; exact ⟨Or.inr hx, hs⟩
      · rintro ⟨rfl | hx, hs⟩
        · exact absurd hy hs
        · exact ⟨hx, hs⟩
    · rw [dedupGo, if_neg hy]
      simp only [List.mem_cons, ih]
      constructor
      · rintro (rfl | ⟨hx, hs⟩)
        · exact ⟨Or.inl rfl, hy⟩
        · exact ⟨Or.inr hx, fun hm => hs (Or.inr hm)⟩
      · rintro ⟨rfl | hx, hs⟩
        · exact Or.inl rfl
        · by_cases hxy : x = y
          · exact Or.inl hxy
          · exact Or.inr ⟨hx, by simp [hxy, hs]⟩

theorem mem_pySet [DecidableEq α] (l : List α) (x : α) :
    x ∈ pySet l ↔ x ∈ l := by
  simp [pySet, mem_dedupGo]

theorem nodup_dedupGo [DecidableEq α] (seen l : List α) :
    (dedupGo seen l).Nodup := by
  induction l generalizing seen with
  | nil => simp [dedupGo]
  | cons y ys ih =>
    by_cases hy : y ∈ seen
    · rw [dedupGo, if_pos hy]; exact ih seen
    · rw [dedupGo, if_neg hy, List.nodup_cons]
      refine ⟨fun hmem => ?_, ih (y :: seen)⟩
      exact ((mem_dedupGo _ _ _).1 hmem).2 (List.mem_cons_self _ _)

theorem nodup_pySet [DecidableEq α] (l : List α) : (pySet l).Nodup :=
  nodup_dedupGo [] l

theorem mem_keysOf_upsert [DecidableEq κ] (d : List (κ × α)) (p : κ × α)
    (k : κ) : k ∈ keysOf (upsert d p) ↔ k ∈ keysOf d ∨ k = p.1 := by
  induction d with
  | nil => simp [upsert, keysOf]
  | cons q rest ih =>
    rw [upsert]
    by_cases hq : q.1 = p.1
    · rw [if_pos hq]
      simp only [keysOf, List.map_cons, List.mem_cons]
      constructor
      · rintro (rfl | h)
        · exact Or.inl (Or.inl rfl)
        · exact Or.inl (Or.inr h)
      · rintro ((rfl | h) | rfl)
        · exact Or.inl rfl
        · exact Or.inr h
        · exact Or.inl hq.symm
    · rw [if_neg hq]
      simp only [keysOf, List.map_cons, List.mem_cons] at ih ⊢
      rw [ih]
      tauto

theorem mem_keysOf_foldl_upsert [DecidableEq κ] (l : List (κ × α))
    (acc : List (κ × α)) (k : κ) :
    k ∈ keysOf (l.foldl upsert acc) ↔ k ∈ keysOf acc ∨ k ∈ keysOf l := by
  induction l generalizing acc with
  | nil => simp [keysOf]
  | cons p rest ih =>
    rw [List.foldl_cons, ih, mem_keysOf_upsert]
    simp only [keysOf, List.map_cons, List.mem_cons]
    tauto

theorem mem_keysOf_pydict [DecidableEq κ] (l : List (κ × α)) (k : κ) :
    k ∈ keysOf (pydict l) ↔ k ∈ keysOf l := by
  rw [pydict, mem_keysOf_foldl_upsert]
  simp [keysOf]

theorem mapExcept_ok_mem (f : α → Except ε β) (xs : List α) (ys : List β)
    (h : mapExcept f xs = .ok ys) (z : β) :
    z ∈ ys ↔ ∃ x ∈ xs, f x = .ok z := by
  induction xs generalizing ys with
  | nil =>
    rw [mapExcept] at h
    cases h; simp
  | cons x rest ih =>
    rw [mapExcept] at h
    cases hfx : f x with
    | error e => rw [hfx] at h; cases h
    | ok y =>
      rw [hfx] at h
      cases hrest : mapExcept f rest with
      | error e => rw [hrest] at h; cases h
      | ok ys' =>
        rw [hrest] at h
        cases h
        simp only [List.mem_cons, ih ys' hrest]
        constructor
        · rintro (rfl | ⟨x', hx', hfx'⟩)
          · exact ⟨x, Or.inl rfl, hfx⟩
          · exact ⟨x', Or.inr hx', hfx'⟩
        · rintro ⟨x', rfl | hx', hfx'⟩
          · rw [hfx] at hfx'; exact Or.inl (Except.ok.inj hfx').symm
          · exact Or.inr ⟨x', hx', hfx'⟩

/-! ## Lemmas about `re.escape`: a placeholder occurs in the escaped
template iff it occurs in the original template. -/

theorem escape_cons_sp (c : Char) (t : Str) (h : pySpecial c = true) :
    escape (c :: t) = '\\' :: c :: escape t := by
  rw [escape, if_pos h]

theorem escape_cons_ns (c : Char) (t : Str) (h : ¬ pySpecial c = true) :
    escape (c :: t) = c :: escape t := by
  rw [escape, if_neg h]

theorem startsWith_escape (pat t : Str) (h : startsWith pat t = true) :
    startsWith (escape pat) (escape t) = true := by
  induction pat generalizing t with
  | nil => simp [escape, startsWith]
  | cons p0 pat' ih =>
    cases t with
    | nil => simp [startsWith] at h
    | cons d t' =>
      simp only [startsWith, Bool.and_eq_true, decide_eq_true_eq] at h
      obtain ⟨rfl, h'⟩ := h
      by_cases hp : pySpecial p0 = true
      · rw [escape, if_pos hp, escape, if_pos hp]
        simp [startsWith, ih _ h']
      · rw [escape, if_neg hp, escape, if_neg hp]
        simp [startsWith, ih _ h']

theorem startsWith_escape_reflect (pat t : Str)
    (h : startsWith (escape pat) (escape t) = true) :
    startsWith pat t = true := by
  induction pat generalizing t with
  | nil => rfl
  | cons p0 pat' ih =>
    cases t with
    | nil =>
      exfalso
      by_cases hp : pySpecial p0 = true
      · rw [escape_cons_sp _ _ hp] at h; simp [escape, startsWith] at h
      · rw [escape_cons_ns _ _ hp] at h; simp [escape, startsWith] at h
    | cons d t' =>
      by_cases hp : pySpecial p0 = true <;> by_cases hd : pySpecial d = true
      · rw [escape, if_pos hp, escape, if_pos hd] at h
        simp only [startsWith, Bool.and_eq_true, decide_eq_true_eq] at h
        obtain ⟨-, rfl, h'⟩ := h
        simp [startsWith, ih _ h']
      · rw [escape, if_pos hp, escape, if_neg hd] at h
        simp only [startsWith, Bool.and_eq_true, decide_eq_true_eq] at h
        obtain ⟨rfl, -⟩ := h
        exact absurd (by decide : pySpecial '\\' = true) hd
      · rw [escape, if_neg hp, escape, if_pos hd] at h
        simp only [startsWith, Bool.and_eq_true, decide_eq_true_eq] at h
        obtain ⟨rfl, -⟩ := h
        exact absurd (by decide : pySpecial '\\' = true) hp
      · rw [escape, if_neg hp, escape, if_neg hd] at h
        simp only [startsWith, Bool.and_eq_true, decide_eq_true_eq] at h
        obtain ⟨rfl, h'⟩ := h
        simp [startsWith, ih _ h']

theorem containsSub_of_startsWith (pat t : Str)
    (h : startsWith pat t = true) : containsSub pat t = true := by
  cases t with
  | nil => rw [containsSub]; exact h
  | cons c rest => simp [containsSub, h]

theorem containsSub_cons (pat t : Str) (c : Char)
    (h : containsSub pat t = true) : containsSub pat (c :: t) = true := by
  simp [containsSub, h]

theorem containsSub_drop (pat : Str) :
    ∀ n t, containsSub pat (t.drop n) = true → containsSub pat t = true := by
  intro n
  induction n with
  | zero => simp
  | succ n ih =>
    intro t h
    cases t with
    | nil => simpa using h
    | cons c t' =>
      rw [List.drop_succ_cons] at h
      exact containsSub_cons _ _ _ (ih t' h)

theorem containsSub_escape (pat t : Str) (h : containsSub pat t = true) :
    containsSub (escape pat) (escape t) = true := by
  induction t with
  | nil =>
    rw [containsSub] at h
    cases pat with
    | nil => decide
    | cons p ps => simp [startsWith] at h
  | cons c t' ih =>
    rw [containsSub, Bool.or_eq_true] at h
    rcases h with h1 | h2
    · exact containsSub_of_startsWith _ _ (startsWith_escape _ _ h1)
    · have hrec := ih h2
      by_cases hp : pySpecial c = true
      · rw [escape, if_pos hp]
        exact containsSub_cons _ _ _ (containsSub_cons _ _ _ hrec)
      · rw [escape, if_neg hp]
        exact containsSub_cons _ _ _ hrec

theorem startsWith_special_escape (p0 : Char) (rest t : Str)
    (hs : pySpecial p0 = true) (hb : p0 ≠ '\\') :
    startsWith (p0 :: rest) (escape t) = false := by
  cases t with
  | nil => rfl
  | cons d t' =>
    by_cases hd : pySpecial d = true
    · rw [escape, if_pos hd]
      simp [startsWith, hb]
    · rw [escape, if_neg hd]
      by_cases he : p0 = d
      · exact absurd (he ▸ hs) hd
      · simp [startsWith, he]

theorem containsSub_escape_reflect (pat : Str) (hne : pat ≠ [])
    (hhd : pat.head? ≠ some '\\') :
    ∀ t, containsSub (escape pat) (escape t) = true →
      containsSub pat t = true := by
  intro t
  induction t with
  | nil =>
    intro h
    cases pat with
    | nil => exact absurd rfl hne
    | cons p ps =>
      exfalso
      by_cases hs : pySpecial p = true
      · rw [escape_cons_sp _ _ hs] at h
        simp [escape, containsSub, startsWith] at h
      · rw [escape_cons_ns _ _ hs] at h
        simp [escape, containsSub, startsWith] at h
  | cons c t' ih =>
    intro h
    obtain ⟨p0, pat', rfl⟩ : ∃ p0 pat', pat = p0 :: pat' := by
      cases pat with
      | nil => exact absurd rfl hne
      | cons p0 pat' => exact ⟨p0, pat', rfl⟩
    have hb : p0 ≠ '\\' := fun he => hhd (by simp [he])
    by_cases hp : pySpecial c = true
    · rw [escape_cons_sp _ _ hp, containsSub, Bool.or_eq_true] at h
      rcases h with h1 | h2
      · have hsw : startsWith (escape (p0 :: pat')) (escape (c :: t')) = true := by
          rw [escape_cons_sp _ _ hp]; exact h1
        exact containsSub_of_startsWith _ _ (startsWith_escape_reflect _ _ hsw)
      · rw [containsSub, Bool.or_eq_true] at h2
        rcases h2 with h3 | h4
        · exfalso
          by_cases hs0 : pySpecial p0 = true
          · rw [escape_cons_sp _ _ hs0] at h3
            simp only [startsWith, Bool.and_eq_true, decide_eq_true_eq] at h3
            obtain ⟨-, h5⟩ := h3
            rw [startsWith_special_escape p0 _ t' hs0 hb] at h5
            exact Bool.false_ne_true h5
          · rw [escape_cons_ns _ _ hs0] at h3
            simp only [startsWith, Bool.and_eq_true, decide_eq_true_eq] at h3
            exact hs0 (h3.1 ▸ hp)
        · exact containsSub_cons _ _ _ (ih h4)
    · rw [escape_cons_ns _ _ hp, containsSub, Bool.or_eq_true] at h
      rcases h with h1 | h2
      · have hsw : startsWith (escape (p0 :: pat')) (escape (c :: t')) = true := by
          rw [escape_cons_ns _ _ hp]; exact h1
        exact containsSub_of_startsWith _ _ (startsWith_escape_reflect _ _ hsw)
      · exact containsSub_cons _ _ _ (ih h2)

theorem escape_pkgPat : escape pkgPat = escPkgPat := by decide

theorem escape_verPat : escape verPat = escVerPat := by decide

/-! ## Lemmas about the template segmentation -/

theorem segsGo_count_pkg_containsSub :
    ∀ f t, t.length < f → 1 ≤ (segsGo f t).count Seg.pkg →
      containsSub pkgPat t = true := by
  intro f
  induction f with
  | zero => intro t ht; omega
  | succ f ih =>
    intro t ht hcount
    cases t with
    | nil => simp [segsGo] at hcount
    | cons c rest =>
      by_cases hp : startsWith pkgPat (c :: rest) = true
      · exact containsSub_of_startsWith _ _ hp
      · by_cases hv : startsWith verPat (c :: rest) = true
        · rw [segsGo, if_neg hp, if_pos hv, List.count_cons] at hcount
          simp only [List.length_cons] at ht
          have hlen : (List.drop 9 (c :: rest)).length < f := by
            rw [List.length_drop]; simp only [List.length_cons]; omega
          have := ih _ hlen (by simpa using hcount)
          exact containsSub_drop _ 9 _ this
        · rw [segsGo, if_neg hp, if_neg hv, List.count_cons] at hcount
          simp only [List.length_cons] at ht
          have := ih rest (by omega) (by simpa using hcount)
          exact containsSub_cons _ _ _ this

theorem segsGo_count_ver_containsSub :
    ∀ f t, t.length < f → 1 ≤ (segsGo f t).count Seg.ver →
      containsSub verPat t = true := by
  intro f
  induction f with
  | zero => intro t ht; omega
  | succ f ih =>
    intro t ht hcount
    cases t with
    | nil => simp [segsGo] at hcount
    | cons c rest =>
      by_cases hp : startsWith pkgPat (c :: rest) = true
      · rw [segsGo, if_pos hp, List.count_cons] at hcount
        simp only [List.length_cons] at ht
        have hlen : (List.drop 9 (c :: rest)).length < f := by
          rw [List.length_drop]; simp only [List.length_cons]; omega
        have := ih _ hlen (by simpa using hcount)
        exact containsSub_drop _ 9 _ this
      · by_cases hv : startsWith verPat (c :: rest) = true
        · exact containsSub_of_startsWith _ _ hv
        · rw [segsGo, if_neg hp, if_neg hv, List.count_cons] at hcount
          simp only [List.length_cons] at ht
          have := ih rest (by omega) (by simpa using hcount)
          exact containsSub_cons _ _ _ this

/-! ## Lemmas about the backtracking matcher -/

theorem mmatch_nil (s : Str) : mmatch [] s = some [] := rfl

theorem mmatch_lit_nil (c : Char) (r : List RAtom) :
    mmatch (.lit c :: r) [] = none := rfl

theorem mmatch_lit_cons (c : Char) (r : List RAtom) (x : Char) (s : Str) :
    mmatch (.lit c :: r) (x :: s) = if x = c then mmatch r s else none := rfl

theorem mmatch_grp (i : Nat) (p : Char → Bool) (r : List RAtom) (s : Str) :
    mmatch (.grp i p :: r) s =
      tryKs (fun u => mmatch r u) i s (runLen p s) := rfl

theorem runLen_le_length (p : Char → Bool) (s : Str) :
    runLen p s ≤ s.length := by
  induction s with
  | nil => simp [runLen]
  | cons c cs ih =>
    rw [runLen]
    split
    · exact Nat.succ_le_succ ih
    · exact Nat.zero_le _

theorem le_runLen_iff (k : Nat) (p : Char → Bool) (s : Str) :
    k ≤ runLen p s ↔ k ≤ s.length ∧ (s.take k).all p = true := by
  induction s generalizing k with
  | nil =>
    cases k with
    | zero => simp [runLen]
    | succ k => simp [runLen]
  | cons c cs ih =>
    cases k with
    | zero => simp
    | succ k =>
      rw [runLen]
      by_cases hc : p c = true
      · rw [if_pos hc]
        simp only [List.take_succ_cons, List.all_cons, hc, Bool.true_and,
          List.length_cons]
        constructor
        · intro h
          obtain ⟨h1, h2⟩ := (ih k).1 (Nat.le_of_succ_le_succ h)
          exact ⟨Nat.succ_le_succ h1, h2⟩
        · rintro ⟨h1, h2⟩
          exact Nat.succ_le_succ ((ih k).2 ⟨Nat.le_of_succ_le_succ h1, h2⟩)
      · rw [if_neg hc]
        simp only [List.take_succ_cons, List.all_cons, List.length_cons]
        constructor
        · intro h; omega
        · rintro ⟨h1, h2⟩
          rw [Bool.and_eq_true] at h2
          exact absurd h2.1 hc

theorem tryKs_isSome (next : Str → Option Caps) (id : Nat) (s : Str) :
    ∀ n, (tryKs next id s n).isSome = true ↔
      ∃ k, 1 ≤ k ∧ k ≤ n ∧ (next (s.drop k)).isSome = true := by
  intro n
  induction n with
  | zero =>
    constructor
    · intro h; simp [tryKs] at h
    · rintro ⟨k, h1, h2, -⟩; omega
  | succ n ih =>
    cases hnext : next (s.drop (n + 1)) with
    | some caps =>
      constructor
      · intro _
        exact ⟨n + 1, by omega, Nat.le_refl _, by rw [hnext]; rfl⟩
      · intro _
        rw [tryKs, hnext]
        rfl
    | none =>
      have heq : tryKs next id s (n + 1) = tryKs next id s n := by
        rw [tryKs, hnext]
      rw [heq, ih]
      constructor
      · rintro ⟨k, h1, h2, h3⟩
        exact ⟨k, h1, Nat.le_succ_of_le h2, h3⟩
      · rintro ⟨k, h1, h2, h3⟩
        refine ⟨k, h1, ?_, h3⟩
        rcases Nat.lt_or_ge k (n + 1) with hlt | hge
        · omega
        · have hk : k = n + 1 := by omega
          subst hk
          rw [hnext] at h3
          simp at h3

theorem take_append_le (l₁ l₂ : List α) (k : Nat) (h : k ≤ l₁.length) :
    (l₁ ++ l₂).take k = l₁.take k := by
  induction l₁ generalizing k with
  | nil =>
    have hk : k = 0 := by simpa using h
    subst hk; simp
  | cons x xs ih =>
    cases k with
    | zero => simp
    | succ k =>
      have hk : k ≤ xs.length := by simp at h; omega
      rw [List.cons_append, List.take_succ_cons, List.take_succ_cons, ih k hk]

theorem drop_append_le (l₁ l₂ : List α) (k : Nat) (h : k ≤ l₁.length) :
    (l₁ ++ l₂).drop k = l₁.drop k ++ l₂ := by
  induction l₁ generalizing k with
  | nil =>
    have hk : k = 0 := by simpa using h
    subst hk; simp
  | cons x xs ih =>
    cases k with
    | zero => simp
    | succ k =>
      have hk : k ≤ xs.length := by simp at h; omega
      rw [List.cons_append, List.drop_succ_cons, List.drop_succ_cons, ih k hk]

theorem eos_not_mem_templateAtoms (segs : List Seg) :
    RAtom.eos ∉ templateAtoms segs := by
  intro h
  rw [templateAtoms, List.mem_flatten] at h
  obtain ⟨l, hl, hmem⟩ := h
  rcases List.mem_map.1 hl with ⟨sg, -, rfl⟩
  cases sg <;> simp [segAtoms] at hmem

/-- Prefix-match semantics of the matcher: a pattern without an `$` anchor
matches an input (in the `re.match` sense) iff some prefix of the input is
matched exactly (matches the `$`-anchored pattern).  This is the spec's
prefix-match policy: matching is anchored at the start, and trailing
characters after a full match are permitted. -/
theorem mmatch_prefix_iff (atoms : List RAtom) (hno : RAtom.eos ∉ atoms) :
    ∀ s : Str, (mmatch atoms s).isSome = true ↔
      ∃ p q, s = p ++ q ∧
        (mmatch (atoms ++ [RAtom.eos]) p).isSome = true := by
  induction atoms with
  | nil =>
    intro s
    constructor
    · intro _
      exact ⟨[], s, rfl, by decide⟩
    · intro _
      rfl
  | cons a r ih =>
    have har : RAtom.eos ∉ r := fun h => hno (List.mem_cons_of_mem _ h)
    have hane : a ≠ RAtom.eos := fun h => hno (h ▸ List.mem_cons_self _ _)
    intro s
    cases a with
    | eos => exact absurd rfl hane
    | lit c =>
      cases s with
      | nil =>
        constructor
        · intro h
          rw [mmatch_lit_nil] at h
          simp at h
        · rintro ⟨p, q, hpq, hfull⟩
          have hp : p = [] := (List.append_eq_nil.1 hpq.symm).1
          subst hp
          rw [List.cons_append, mmatch_lit_nil] at hfull
          simp at hfull
      | cons x s' =>
        rw [mmatch_lit_cons]
        by_cases hx : x = c
        · rw [if_pos hx, ih har s']
          constructor
          · rintro ⟨p', q, rfl, hfull⟩
            refine ⟨x :: p', q, rfl, ?_⟩
            rw [List.cons_append, mmatch_lit_cons, if_pos hx]
            exact hfull
          · rintro ⟨p, q, hpq, hfull⟩
            cases p with
            | nil =>
              rw [List.cons_append, mmatch_lit_nil] at hfull
              simp at hfull
            | cons y p' =>
              rw [List.cons_append] at hpq
              injection hpq with h1 h2
              subst h1
              rw [List.cons_append, mmatch_lit_cons, if_pos hx] at hfull
              exact ⟨p', q, h2, hfull⟩
        · rw [if_neg hx]
          constructor
          · intro h; simp at h
          · rintro ⟨p, q, hpq, hfull⟩
            exfalso
            cases p with
            | nil =>
              rw [List.cons_append, mmatch_lit_nil] at hfull
              simp at hfull
            | cons y p' =>
              rw [List.cons_append] at hpq
              injection hpq with h1 h2
              subst h1
              rw [List.cons_append, mmatch_lit_cons, if_neg hx] at hfull
              simp at hfull
    | grp i pc =>
      rw [mmatch_grp, tryKs_isSome]
      constructor
      · rintro ⟨k, hk1, hkr, hsome⟩
        obtain ⟨p', q, hsplit, hfull⟩ := (ih har (s.drop k)).1 hsome
        have hklen : k ≤ s.length := le_trans hkr (runLen_le_length pc s)
        have htake : (s.take k).length = k := by
          rw [List.length_take]; omega
        refine ⟨s.take k ++ p', q, ?_, ?_⟩
        · rw [List.append_assoc, ← hsplit, List.take_append_drop]
        · rw [List.cons_append, mmatch_grp, tryKs_isSome]
          refine ⟨k, hk1, ?_, ?_⟩
          · apply (le_runLen_iff _ _ _).2
            constructor
            · rw [List.length_append, htake]; omega
            · rw [take_append_le _ _ _ (le_of_eq htake.symm),
                List.take_of_length_le (le_of_eq htake)]
              exact ((le_runLen_iff k pc s).1 hkr).2
          · rw [drop_append_le _ _ _ (le_of_eq htake.symm),
              List.drop_eq_nil_of_le (le_of_eq htake)]
            simpa using hfull
      · rintro ⟨p, q, hsplit, hfull⟩
        subst hsplit
        rw [List.cons_append, mmatch_grp, tryKs_isSome] at hfull
        obtain ⟨k, hk1, hkp, hsome⟩ := hfull
        have hkplen : k ≤ p.length := le_trans hkp (runLen_le_length pc p)
        refine ⟨k, hk1, ?_, ?_⟩
        · apply (le_runLen_iff _ _ _).2
          constructor
          · rw [List.length_append]; omega
          · rw [take_append_le _ _ _ hkplen]
            exact ((le_runLen_iff k pc p).1 hkp).2
        · apply (ih har ((p ++ q).drop k)).2
          exact ⟨p.drop k, q, (drop_append_le _ _ _ hkplen), hsome⟩

theorem fst_mem_of_mem_zip (l₁ : List α) (l₂ : List β) (p : α × β)
    (h : p ∈ l₁.zip l₂) : p.1 ∈ l₁ := by
  induction l₁ generalizing l₂ with
  | nil => simp [List.zip] at h
  | cons x xs ih =>
    cases l₂ with
    | nil => simp [List.zip] at h
    | cons y ys =>
      rcases List.mem_cons.1 h with rfl | h'
      · exact List.mem_cons_self _ _
      · exact List.mem_cons_of_mem _ (ih ys h')

/-! # Claim theorems -/

/-- Claim C5: the key-resolution record parser consumes its input as a
strict three-state cycle.  Conjuncts: (1) two complete
header/source/package-list cycles parse into exactly the two expected
`ResolvedRosdep` records; (2) a complete leading cycle prepends one record
to the parse of the remaining stream, so the start-of-stream facts below
hold at every cycle boundary; (3) a line failing the header grammar in
header state raises `ParseError` (`ValueError`); (4) likewise for the
source state and (5) the package-list state; (6) a stream ending after a
header and (7) after a header and a source raises `ParseError`. -/
theorem rosdep_parser_three_state_cycle :
    (∀ h1 s1 p1 h2 s2 p2 k1 src1 g1 k2 src2 g2,
      headerMatch h1 = some k1 → sourceMatch s1 = some src1 →
      pkgListMatch p1 = some g1 → headerMatch h2 = some k2 →
      sourceMatch s2 = some src2 → pkgListMatch p2 = some g2 →
      parseResolved [h1, s1, p1, h2, s2, p2] =
        .ok [⟨k1, src1, packagesOfGroups g1⟩, ⟨k2, src2, packagesOfGroups g2⟩]) ∧
    (∀ h s p k src g rest, headerMatch h = some k → sourceMatch s = some src →
      pkgListMatch p = some g →
      parseResolved (h :: s :: p :: rest) =
        (parseResolved rest).map (⟨k, src, packagesOfGroups g⟩ :: ·)) ∧
    (∀ l ls, headerMatch l = none →
      parseResolved (l :: ls) = .error .valueError) ∧
    (∀ h k l ls, headerMatch h = some k → sourceMatch l = none →
      parseResolved (h :: l :: ls) = .error .valueError) ∧
    (∀ h k s src l ls, headerMatch h = some k → sourceMatch s = some src →
      pkgListMatch l = none →
      parseResolved (h :: s :: l :: ls) = .error .valueError) ∧
    (∀ h k, headerMatch h = some k → parseResolved [h] = .error .valueError) ∧
    (∀ h k s src, headerMatch h = some k → sourceMatch s = some src →
      parseResolved [h, s] = .error .valueError) := by
  refine ⟨?_, ?_, ?_, ?_, ?_, ?_, ?_⟩
  · intro h1 s1 p1 h2 s2 p2 k1 src1 g1 k2 src2 g2 hh1 hs1 hp1 hh2 hs2 hp2
    simp [parseResolved, parseLoop, hh1, hs1, hp1, hh2, hs2, hp2, Except.map]
  · intro h s p k src g rest hh hs hp
    simp [parseResolved, parseLoop, hh, hs, hp]
  · intro l ls hl
    simp [parseResolved, parseLoop, hl]
  · intro h k l ls hh hl
    simp [parseResolved, parseLoop, hh, hl]
  · intro h k s src l ls hh hs hl
    simp [parseResolved, parseLoop, hh, hs, hl]
  · intro h k hh
    simp [parseResolved, parseLoop, hh]
  · intro h k s src hh hs
    simp [parseResolved, parseLoop, hh, hs]

/-- Witness for C5: a concrete two-cycle `rosdep resolve` output parses
into exactly two records. -/
theorem rosdep_parser_three_state_cycle_witness :
    parseResolved [str "#ROSDEP[eigen]", str "#apt", str "libeigen3-dev",
      str "#ROSDEP[boost]", str "#apt", str "libboost-dev"] =
      .ok [⟨str "eigen", str "apt", [str "libeigen3-dev"]⟩,
           ⟨str "boost", str "apt", [str "libboost-dev"]⟩] :=
  rosdep_parser_three_state_cycle.1 _ _ _ _ _ _ _ _
    (str "libeigen3-dev", none) _ _ (str "libboost-dev", none)
    (by decide) (by decide) (by decide) (by decide) (by decide) (by decide)

/-- Claim C6 (code bug): `serde.py` uses `tosholi.format.dumps` /
`tosholi.parse.loads` without ever importing `tosholi`, so serialization
and deserialization raise `NameError` on every input and no round trip can
succeed. -/
theorem lockfile_serde_name_error :
    dumps { version := 0, project_packages := [], rosdistro_packages := [],
            system_packages := [] } = .error .nameError ∧
    loads (str "") = .error .nameError :=
  ⟨rfl, rfl⟩

/-- Claim C7 (code bug): the package-list regex
`^(\S+)(?:\s+(\S+))*$` captures, via `m.groups()`, only the first and the
last token (a repeated group keeps its final match), so a three-token list
line `a b c` produces `packages = [a, c]`, not the full ordered token
list `[a, b, c]`. -/
theorem rosdep_packages_drop_middle_tokens :
    parseResolved [str "#ROSDEP[k]", str "#apt", str "a b c"] =
      .ok [⟨str "k", str "apt", [str "a", str "c"]⟩] ∧
    [str "a", str "c"] ≠ [str "a", str "b", str "c"] := by
  exact ⟨by decide, by decide⟩

/-- Counterexample for C8: with a successful lookup command
(`returncode = 0`) whose output contains no metadata fields, both
`get_apt_version` and `get_pip_version` raise `ValueError` instead of
returning the `None` the claim promises. -/
theorem version_lookup_counterexample :
    getAptVersion 0 (str "") = .error .valueError ∧
    getPipVersion 0 (str "") = .error .valueError := by
  exact ⟨by decide, by decide⟩

/-- Claim C8 as amended: the per-ecosystem version lookups never return
`None`; they raise `ValueError` exactly when the lookup command fails or
when the successful command's output lacks the required
`Version:`/`SHA256:` fields. -/
theorem version_lookup_never_none (ret : Int) (stdout : Str) :
    (getAptVersion ret stdout ≠ .ok none) ∧
    (getPipVersion ret stdout ≠ .ok none) ∧
    (getAptVersion ret stdout = .error .valueError ↔
      (ret ≠ 0 ∨ searchLabeled (str "Version:") stdout = none ∨
        searchLabeled (str "SHA256:") stdout = none)) ∧
    (getPipVersion ret stdout = .error .valueError ↔
      (ret ≠ 0 ∨ searchLabeled (str "Version:") stdout = none)) := by
  unfold getAptVersion getPipVersion
  by_cases h : ret = 0
  · subst h
    simp only [ne_eq, not_true_eq_false, if_neg, if_false, false_or]
    cases hv : searchLabeled (str "Version:") stdout <;>
      cases hh : searchLabeled (str "SHA256:") stdout <;> simp
  · simp [h]

/-- Witness for C8 (amended): the characterization instantiated at a
failed command on empty output. -/
theorem version_lookup_never_none_witness :
    (getAptVersion 1 (str "") ≠ .ok none) ∧
    (getPipVersion 1 (str "") ≠ .ok none) ∧
    (getAptVersion 1 (str "") = .error .valueError ↔
      ((1 : Int) ≠ 0 ∨ searchLabeled (str "Version:") (str "") = none ∨
        searchLabeled (str "SHA256:") (str "") = none)) ∧
    (getPipVersion 1 (str "") = .error .valueError ↔
      ((1 : Int) ≠ 0 ∨ searchLabeled (str "Version:") (str "") = none)) :=
  version_lookup_never_none 1 (str "")

/-- Claim C9: a distribution declaration document without a top-level
`repositories` key yields an empty extraction result — no valid
repositories, no invalid repositories — and raises no exception. -/
theorem extract_no_repositories_key (doc : Yaml)
    (h : pyIn (str "repositories") doc = false) :
    extractReleasedRepos doc = .ok ⟨[], []⟩ := by
  simp [extractReleasedRepos, h]

/-- Witness for C9: the empty mapping has no `repositories` key. -/
theorem extract_no_repositories_key_witness :
    extractReleasedRepos .mnil = .ok ⟨[], []⟩ :=
  extract_no_repositories_key .mnil (by decide)

/-- Claim C10: `get_keys_in_rosdistro` raises rather than returning a
partial result when the `rosdep where-defined` output line count differs
from the number of queried keys; on success the returned set is a subset
of the queried keys, containing exactly those keys whose positionally
paired, stripped output line equals the canonical distribution URI. -/
theorem keys_in_rosdistro_characterization (keys : List Str) (distro : Str)
    (ret : Int) (outLines : List Str) :
    (outLines.length ≠ keys.length →
      ∀ S, getKeysInRosdistro keys distro ret outLines ≠ .ok S) ∧
    (∀ S, getKeysInRosdistro keys distro ret outLines = .ok S →
      (∀ k, k ∈ S → k ∈ keys) ∧
      (∀ k, k ∈ S ↔ ∃ p ∈ keys.zip outLines,
        p.1 = k ∧ pstrip p.2 = canonicalUri distro)) := by
  unfold getKeysInRosdistro
  by_cases hret : ret = 0
  · subst hret
    simp only [ne_eq, not_true_eq_false, if_neg, if_false]
    by_cases hlen : outLines.length = keys.length
    · simp only [hlen, not_true_eq_false, if_neg, if_false]
      refine ⟨fun hne => hne.elim, ?_⟩
      intro S hS
      rw [Except.ok.injEq] at hS
      subst hS
      constructor
      · intro k hk
        rw [mem_pySet] at hk
        rcases List.mem_map.1 hk with ⟨p, hp, rfl⟩
        exact fst_mem_of_mem_zip _ _ _ (List.mem_filter.1 hp).1
      · intro k
        rw [mem_pySet, List.mem_map]
        constructor
        · rintro ⟨p, hp, rfl⟩
          rcases List.mem_filter.1 hp with ⟨hpz, hcond⟩
          exact ⟨p, hpz, rfl, by simpa using hcond⟩
        · rintro ⟨p, hpz, rfl, hcond⟩
          exact ⟨p, List.mem_filter.2 ⟨hpz, by simpa using hcond⟩, rfl⟩
    · simp [hlen]
  · simp [hret]

/-- Witness for C10: a one-key query with an empty output errors. -/
theorem keys_in_rosdistro_characterization_witness :
    getKeysInRosdistro [str "eigen"] (str "humble") 0 [] ≠ .ok [] :=
  (keys_in_rosdistro_characterization [str "eigen"] (str "humble") 0 []).1
    (by decide) []

/-- Counterexample for C1: a run whose `rosdep resolve` call returns empty
output for the queried system key `boost`.  The lock command performs no
closure validation: it returns a Lockfile in which `boost` (a member of
the original dependency-key set) is a key of neither `rosdistro_packages`
nor `system_packages`, and no `ValidationError` is raised. -/
theorem lock_closure_counterexample :
    onLockCommand [] [str "boost"] [] 0 [] =
      .ok { version := 0, project_packages := [], rosdistro_packages := [],
            system_packages := [] } ∧
    ¬ ClosureHolds [str "boost"]
      { version := 0, project_packages := [], rosdistro_packages := [],
        system_packages := [] } := by
  exact ⟨by decide, by decide⟩

/-- Claim C1 as amended: whenever the external batch resolver's parsed
records carry exactly the queried system-key set (the set difference
`rosdeps - rosdistro_keys`), the assembled Lockfile satisfies the closure
invariant: every original dependency key is a key of exactly one of
`rosdistro_packages` and `system_packages`. -/
theorem lock_closure_with_faithful_resolver
    (discovered : List ColconSourcePackage) (rosdeps : List Str)
    (allPackages : List ReleasedPackage) (resolveRet : Int)
    (resolveOut : List Str) (records : List ResolvedRosdep) (lf : Lockfile)
    (hres : resolveKeysToSystemDeps resolveRet resolveOut = .ok records)
    (hkeys : (records.map (·.key)).toFinset =
      (systemKeysOf rosdeps allPackages).toFinset)
    (hrun : onLockCommand discovered rosdeps allPackages resolveRet
      resolveOut = .ok lf) :
    ClosureHolds rosdeps lf := by
  have hrun' : onLockCommand discovered rosdeps allPackages resolveRet
      resolveOut =
      .ok { version := 0
            project_packages := pydict (discovered.map fun p => (p.name, p))
            rosdistro_packages := pydict
              ((resolveKeysToSources allPackages rosdeps).map
                fun p => (p.name, p))
            system_packages := pydict (records.map fun r => (r.key, r)) } := by
    unfold onLockCommand
    rw [hres]
  rw [hrun] at hrun'
  injection hrun' with h
  subst h
  intro k hk
  have hros : k ∈ keysOf (pydict
      ((resolveKeysToSources allPackages rosdeps).map fun p => (p.name, p))) ↔
      k ∈ (resolveKeysToSources allPackages rosdeps).map (·.name) := by
    rw [mem_keysOf_pydict]
    simp [keysOf, List.mem_map]
  have hsys : k ∈ keysOf (pydict (records.map fun r => (r.key, r))) ↔
      k ∈ systemKeysOf rosdeps allPackages := by
    rw [mem_keysOf_pydict]
    have h1 : k ∈ keysOf (records.map fun r => (r.key, r)) ↔
        k ∈ records.map (·.key) := by
      simp [keysOf, List.mem_map]
    have h2 : k ∈ records.map (·.key) ↔
        k ∈ systemKeysOf rosdeps allPackages := by
      rw [← List.mem_toFinset, hkeys, List.mem_toFinset]
    exact h1.trans h2
  have hsysmem : k ∈ systemKeysOf rosdeps allPackages ↔
      (k ∈ rosdeps ∧
        k ∉ (resolveKeysToSources allPackages rosdeps).map (·.name)) := by
    unfold systemKeysOf
    rw [List.mem_filter]
    simp [mem_pySet]
  by_cases hmem : k ∈ (resolveKeysToSources allPackages rosdeps).map (·.name)
  · exact Or.inl ⟨hros.2 hmem, fun hs => (hsysmem.1 (hsys.1 hs)).2 hmem⟩
  · exact Or.inr ⟨fun hr => hmem (hros.1 hr), hsys.2 (hsysmem.2 ⟨hk, hmem⟩)⟩

/-- Witness for C1 (amended): a two-key run (`alib` resolved by the release
index, `boost` by the system resolver) whose resolver output covers
exactly the system keys; the assembled Lockfile satisfies the closure
invariant. -/
theorem lock_closure_with_faithful_resolver_witness :
    ClosureHolds [str "alib", str "boost"]
      { version := 0
        project_packages := []
        rosdistro_packages :=
          [(str "alib", ⟨str "alib", .str (str "u"), []⟩)]
        system_packages :=
          [(str "boost", ⟨str "boost", str "apt", [str "libboost-dev"]⟩)] } :=
  lock_closure_with_faithful_resolver [] [str "alib", str "boost"]
    [⟨str "alib", .str (str "u"), []⟩] 0
    [str "#ROSDEP[boost]", str "#apt", str "libboost-dev"]
    [⟨str "boost", str "apt", [str "libboost-dev"]⟩] _
    (by decide) (by decide) (by decide)

/-- Counterexample for C2: two release repositories (`repoA` at URL `a`,
`repoB` at URL `b`) both release a package named `pkg`.  The aggregate
catalog is a Python set of `ReleasedPackage` records, so it retains both
records: the name `pkg` occurs twice and neither record replaces the
other. -/
theorem catalog_duplicate_name_counterexample :
    getOrBuildReleasedPackageCache fetchTwoRepos twoRepoExtraction =
      .ok twoRepoCatalog ∧
    twoRepoCatalog.map (·.name) = [str "pkg", str "pkg"] ∧
    (twoRepoCatalog.filter fun p => p.name = str "pkg").length = 2 := by
  exact ⟨by decide, by decide, by decide⟩

/-- Claim C2 as amended: the aggregate release catalog is a set of full
`ReleasedPackage` records: each record occurs at most once (set
semantics), and its members are exactly the union of the per-repository
extraction results of the deduplicated declared repositories — when two
repositories yield same-name packages with different data, both records
remain and neither replaces the other. -/
theorem catalog_is_union_of_repo_extractions (fetch : Yaml → List TagInfo)
    (res : RepoExtractionResult) (out : List ReleasedPackage)
    (h : getOrBuildReleasedPackageCache fetch res = .ok out) :
    out.Nodup ∧
    ∀ p, p ∈ out ↔ ∃ info ∈ pySet (res.release_info.map Prod.snd),
      ∃ l, extractReleasedPackagesAndVersions fetch info = .ok l ∧
        p ∈ l.map Prod.snd := by
  unfold getOrBuildReleasedPackageCache at h
  cases hmap : mapExcept (extractReleasedPackagesAndVersions fetch)
      (pySet (res.release_info.map Prod.snd)) with
  | error e => rw [hmap] at h; cases h
  | ok results =>
    rw [hmap] at h
    injection h with h
    subst h
    refine ⟨nodup_pySet _, fun p => ?_⟩
    rw [mem_pySet, List.mem_flatten]
    constructor
    · rintro ⟨l, hl, hp⟩
      rcases List.mem_map.1 hl with ⟨l', hl', rfl⟩
      rcases (mapExcept_ok_mem _ _ _ hmap l').1 hl' with ⟨info, hinfo, hex⟩
      exact ⟨info, hinfo, l', hex, hp⟩
    · rintro ⟨info, hinfo, l, hex, hp⟩
      refine ⟨l.map Prod.snd, List.mem_map_of_mem _ ?_, hp⟩
      exact (mapExcept_ok_mem _ _ _ hmap l).2 ⟨info, hinfo, hex⟩

/-- Witness for C2 (amended): the two-repository scenario's catalog is
duplicate-free (as a set of records). -/
theorem catalog_is_union_of_repo_extractions_witness :
    twoRepoCatalog.Nodup :=
  (catalog_is_union_of_repo_extractions fetchTwoRepos twoRepoExtraction
    twoRepoCatalog (by decide)).1

/-- Counterexample for C4: the template `{package}{package}{version}`
contains both placeholders, yet compiling it does not succeed: the
repeated `{package}` substitutes two identically named capture groups and
`re.compile` rejects the pattern (with `re.error`, not `ValueError`). -/
theorem template_compile_counterexample :
    containsSub pkgPat (str "{package}{package}{version}") = true ∧
    containsSub verPat (str "{package}{package}{version}") = true ∧
    releaseTagPatternToRegex (str "{package}{package}{version}") =
      .error .reError := by
  exact ⟨by decide, by decide, by decide⟩

/-- Claim C4 as amended: compiling a template fails with `ValueError` (the
spec's `ValidationError`) iff the template lacks `{package}` or lacks
`{version}`; compiling a template that contains exactly one occurrence of
each placeholder always succeeds (a template containing both but with a
repeated placeholder instead fails with `re.error`). -/
theorem template_compile_characterization (t : Str) :
    (releaseTagPatternToRegex t = .error .valueError ↔
      (containsSub pkgPat t = false ∨ containsSub verPat t = false)) ∧
    ((templateSegs t).count .pkg = 1 → (templateSegs t).count .ver = 1 →
      releaseTagPatternToRegex t = .ok (templateSegs t)) := by
  constructor
  · by_cases h1 : containsSub escPkgPat (escape t) = true
    · have hc1 : containsSub pkgPat t = true := by
        have := containsSub_escape_reflect pkgPat (by decide) (by decide) t
        rw [escape_pkgPat] at this
        exact this h1
      by_cases h2 : containsSub escVerPat (escape t) = true
      · have hc2 : containsSub verPat t = true := by
          have := containsSub_escape_reflect verPat (by decide) (by decide) t
          rw [escape_verPat] at this
          exact this h2
        rw [releaseTagPatternToRegex]
        simp only [h1, h2, Bool.not_true, Bool.false_eq_true, if_false]
        constructor
        · intro hh
          by_cases h3 : (2 ≤ (templateSegs t).count Seg.pkg ||
              2 ≤ (templateSegs t).count Seg.ver) = true
          · rw [if_pos h3] at hh; cases hh
          · rw [if_neg h3] at hh; cases hh
        · rintro (hf | hf)
          · rw [hc1] at hf; cases hf
          · rw [hc2] at hf; cases hf
      · have hc2 : containsSub verPat t = false := by
          by_contra hne
          have hv : containsSub verPat t = true := by
            cases hvv : containsSub verPat t with
            | false => exact absurd hvv hne
            | true => rfl
          have := containsSub_escape verPat t hv
          rw [escape_verPat] at this
          exact h2 this
        rw [releaseTagPatternToRegex]
        simp only [h1, Bool.not_true, Bool.false_eq_true, if_false]
        have h2f : containsSub escVerPat (escape t) = false := by
          cases hvv : containsSub escVerPat (escape t) with
          | false => rfl
          | true => exact absurd hvv h2
        rw [h2f]
        simp [hc2]
    · have hc1 : containsSub pkgPat t = false := by
        by_contra hne
        have hv : containsSub pkgPat t = true := by
          cases hvv : containsSub pkgPat t with
          | false => exact absurd hvv hne
          | true => rfl
        have := containsSub_escape pkgPat t hv
        rw [escape_pkgPat] at this
        exact h1 this
      rw [releaseTagPatternToRegex]
      have h1f : containsSub escPkgPat (escape t) = false := by
        cases hvv : containsSub escPkgPat (escape t) with
        | false => rfl
        | true => exact absurd hvv h1
      rw [h1f]
      simp [hc1]
  · intro hpk hver
    have hc1 : containsSub pkgPat t = true :=
      segsGo_count_pkg_containsSub (t.length + 1) t (by omega)
        (by rw [← templateSegs, hpk])
    have hc2 : containsSub verPat t = true :=
      segsGo_count_ver_containsSub (t.length + 1) t (by omega)
        (by rw [← templateSegs, hver])
    have he1 : containsSub escPkgPat (escape t) = true := by
      rw [← escape_pkgPat]; exact containsSub_escape _ _ hc1
    have he2 : containsSub escVerPat (escape t) = true := by
      rw [← escape_verPat]; exact containsSub_escape _ _ hc2
    rw [releaseTagPatternToRegex]
    simp [he1, he2, hpk, hver]

/-- Witness for C4 (amended): the template
`release/humble/{package}/{version}` has exactly one occurrence of each
placeholder and compiles successfully. -/
theorem template_compile_characterization_witness :
    releaseTagPatternToRegex (str "release/humble/{package}/{version}") =
      .ok (templateSegs (str "release/humble/{package}/{version}")) :=
  (template_compile_characterization
    (str "release/humble/{package}/{version}")).2 (by decide) (by decide)

/-- Claim C3: the matcher compiled from `release/humble/{package}/{version}`
applied to the tag `release/humble/rclcpp/16.0.4-2` yields the package
name `rclcpp` and the version `(16, 0, 4, 2)`; and for every compiled
template and candidate tag, matching is anchored at the start of the tag
with trailing characters permitted: the matcher succeeds iff some prefix
of the tag exactly matches the `$`-anchored pattern. -/
theorem template_matcher_correct :
    ((releaseTagPatternToRegex (str "release/humble/{package}/{version}")).map
      fun segs =>
        matchReleaseTag segs (str "release/humble/rclcpp/16.0.4-2")) =
      .ok (some (str "rclcpp", ⟨16, 0, 4, 2⟩)) ∧
    (∀ t segs tag, releaseTagPatternToRegex t = .ok segs →
      ((mmatch (templateAtoms segs) tag).isSome = true ↔
        ∃ p q, tag = p ++ q ∧
          (mmatch (templateAtoms segs ++ [RAtom.eos]) p).isSome = true)) := by
  constructor
  · decide
  · intro t segs tag _
    exact mmatch_prefix_iff (templateAtoms segs)
      (eos_not_mem_templateAtoms segs) tag

/-- Witness for C3: the prefix-match equivalence instantiated at the
compiled humble template and a tag with trailing characters. -/
theorem template_matcher_correct_witness :
    (mmatch (templateAtoms
        (templateSegs (str "release/humble/{package}/{version}")))
      (str "release/humble/rclcpp/16.0.4-2xyz")).isSome = true ↔
    ∃ p q, str "release/humble/rclcpp/16.0.4-2xyz" = p ++ q ∧
      (mmatch (templateAtoms
          (templateSegs (str "release/humble/{package}/{version}")) ++
        [RAtom.eos]) p).isSome = true :=
  template_matcher_correct.2 (str "release/humble/{package}/{version}")
    (templateSegs (str "release/humble/{package}/{version}"))
    (str "release/humble/rclcpp/16.0.4-2xyz") (by decide)

end Mojodep
